import Mathlib

/-!
Verification of the layout-reconstruction engine of the scholar-assist repository.

The definitions below are a shallow embedding of `src/utils/pdfUtils.ts`
(the live reconstruction pipeline), of the older variant in
`src/unnamed/part_000`, and of the highlight-relocation normalization in
`src/components/PDFViewer.tsx`, `src/unnamed/part_009` and
`src/unnamed/part_010`.  JavaScript numbers are modelled as exact
rationals (all the arithmetic involved is comparison against constant
thresholds), strings as Lean `String`/`List Char`.  The in-place
`Array.prototype.sort` (stable) is modelled by the stable
`List.insertionSort`.
-/

set_option maxHeartbeats 1000000
set_option maxRecDepth 8000

/-- A positioned text run, as built in `processPageText` lines 144-154 of
`src/utils/pdfUtils.ts` (interface `TextBlock`, lines 47-54). -/
structure TextBlock where
  str : String
  x : ℚ
  y : ℚ
  width : ℚ
  height : ℚ
  hasEOL : Bool
deriving DecidableEq, Repr

/-- Comparator of the pre-merge sort, `mergeTextItems` lines 65-68:
`(a,b) => |a.y-b.y| < 2 ? a.x-b.x : a.y-b.y`, read as "`a` sorts no later
than `b`". -/
def mergeLe (a b : TextBlock) : Prop :=
  (|a.y - b.y| < 2 ∧ a.x ≤ b.x) ∨ (2 ≤ |a.y - b.y| ∧ a.y ≤ b.y)

instance : DecidableRel mergeLe := fun a b => by
  unfold mergeLe; infer_instance

/-- Merging one token into the coalescing accumulator
(`mergeTextItems` lines 81-82). -/
def mergeTwo (cur next : TextBlock) : TextBlock :=
  { cur with
    str := cur.str ++ next.str,
    width := cur.width + next.width + (next.x - (cur.x + cur.width)) }

/-- The walk of `mergeTextItems` lines 73-88: merge `next` into `cur` when
it is on the same line (`|Δy| < cur.height/2`) and horizontally adjacent
(`next.x - (cur.x+cur.width) < cur.height*0.5`), else flush `cur`. -/
def mergeLoop : TextBlock → List TextBlock → List TextBlock
  | cur, [] => [cur]
  | cur, next :: rest =>
    if |cur.y - next.y| < cur.height / 2 ∧
        next.x - (cur.x + cur.width) < cur.height * (1/2) then
      mergeLoop (mergeTwo cur next) rest
    else
      cur :: mergeLoop next rest

/-- Embedding of `mergeTextItems` (`src/utils/pdfUtils.ts` lines 61-90): sort by the
`mergeLe` comparator, then coalesce adjacent fragments. -/
def mergeTextItems (items : List TextBlock) : List TextBlock :=
  match List.insertionSort mergeLe items with
  | [] => []
  | h :: t => mergeLoop h t

/-- Horizontal center of a token, `item.x + item.width/2`
(`splitIntoColumns` line 99). -/
def cx (t : TextBlock) : ℚ := t.x + t.width / 2

/-- Embedding of `splitIntoColumns` (`src/utils/pdfUtils.ts` lines 97-116): count the
tokens whose center is left of `0.45·pageWidth` and right of
`0.55·pageWidth`; declare two columns when both counts exceed 30% of the
total, partitioning by `cx < 0.5·pageWidth`; otherwise one column. -/
def splitIntoColumns (items : List TextBlock) (pageWidth : ℚ) :
    List (List TextBlock) :=
  let leftCount := (items.filter (fun i => decide (cx i < pageWidth * (45/100)))).length
  let rightCount := (items.filter (fun i => decide (pageWidth * (55/100) < cx i))).length
  if (leftCount : ℚ) > (items.length : ℚ) * (3/10) ∧
      (rightCount : ℚ) > (items.length : ℚ) * (3/10) then
    [items.filter (fun i => decide (cx i < pageWidth * (1/2))),
     items.filter (fun i => decide (pageWidth * (1/2) ≤ cx i))]
  else
    [items]

/-- The page-level visual signal (`getVisualSignals` result,
`src/utils/pdfUtils.ts` lines 121-132). -/
structure VisualSignal where
  hasImage : Bool
  hasGraphics : Bool
deriving DecidableEq, Repr

namespace OPS

/-- Opcode `OPS.constructPath` (line 10). -/
def constructPath : Nat := 13

/-- Opcode `OPS.paintImageXObject` (line 13). -/
def paintImageXObject : Nat := 85

/-- Opcode `OPS.paintInlineImageXObject` (line 14). -/
def paintInlineImageXObject : Nat := 86

end OPS

/-- Embedding of `getVisualSignals` (`src/utils/pdfUtils.ts` lines 121-132): scan the
operator list for image-paint and path-construction opcodes; a missing or
failed operator list (the `catch` branch) degrades to all-false. -/
def getVisualSignals : Option (List Nat) → VisualSignal
  | none => ⟨false, false⟩
  | some fns =>
    ⟨fns.contains OPS.paintImageXObject || fns.contains OPS.paintInlineImageXObject,
     fns.contains OPS.constructPath⟩

/-- Consecutive inter-token gaps of a line,
`currentLine[k+1].x - (currentLine[k].x + currentLine[k].width)`
(`processPageText` line 201). -/
def gapsOf : List TextBlock → List ℚ
  | a :: b :: rest => (b.x - (a.x + a.width)) :: gapsOf (b :: rest)
  | _ => []

/-- The `maxGap` loop of `processPageText` lines 199-203: `maxGap` starts
at 0 and is overwritten by every gap exceeding 20. -/
def maxGapJS (gs : List ℚ) : ℚ :=
  gs.foldl (fun m g => if 20 < g then g else m) 0

/-- Settling a line closed at a line boundary (`processPageText` lines
191-215): a line with more than 2 tokens and a gap over 20 becomes a
Markdown table row `| a | b | c |`, any other line is space-joined. -/
def settleLine (line : List TextBlock) : String :=
  if 2 < line.length ∧ 20 < maxGapJS (gapsOf line) then
    "| " ++ String.intercalate " | " (line.map (fun t => t.str)) ++ " |"
  else
    String.intercalate " " (line.map (fun t => t.str))

/-- The figure placeholder emitted at line 222. -/
def visualPlaceholder : String :=
  "\n\n> [!VISUAL_CONTENT] Figure/Table/Formula Region Detected\n\n"

/-- The vertical-gap emission at a line boundary (`processPageText`
lines 218-225): a placeholder when `gapY > height*4` and a visual signal
is present, else a blank paragraph line when `gapY > height*1.5`. -/
def gapText (gapY h : ℚ) (v : VisualSignal) : String :=
  if h * 4 < gapY ∧ (v.hasImage || v.hasGraphics) = true then
    visualPlaceholder
  else if h * (3/2) < gapY then
    "\n"
  else
    ""

/-- The mutable loop state of the per-column pass
(`processPageText` lines 180-183). -/
structure ColState where
  lastY : ℚ
  lastBottom : ℚ
  currentLine : List TextBlock
  colText : String
deriving DecidableEq, Repr

/-- One iteration of the per-column token loop (`processPageText` lines
185-233): on a line boundary (`|item.y - lastY| > item.height*0.5`) settle
the current line, emit the vertical-gap text and restart the line. -/
def colStep (v : VisualSignal) (st : ColState) (item : TextBlock) : ColState :=
  if item.height * (1/2) < |item.y - st.lastY| then
    let t1 := if st.currentLine.isEmpty then st.colText
              else st.colText ++ settleLine st.currentLine ++ "\n"
    let t2 := t1 ++ gapText (item.y - st.lastBottom) item.height v
    { lastY := item.y,
      lastBottom := max st.lastBottom (item.y + item.height),
      currentLine := [item],
      colText := t2 }
  else
    { st with
      currentLine := st.currentLine ++ [item],
      lastBottom := max st.lastBottom (item.y + item.height) }

/-- Comparator of the intra-column sort, `processPageText` lines 175-178:
`(a,b) => |a.y-b.y| < 3 ? a.x-b.x : a.y-b.y`. -/
def colLe (a b : TextBlock) : Prop :=
  (|a.y - b.y| < 3 ∧ a.x ≤ b.x) ∨ (3 ≤ |a.y - b.y| ∧ a.y ≤ b.y)

instance : DecidableRel colLe := fun a b => by
  unfold colLe; infer_instance

/-- The whole per-column pass (`processPageText` lines 173-238): sort by
`colLe`, fold `colStep` from the defensive initial state
(`lastY = colItems[0]?.y || 0`), then settle the final line by plain
space-join (lines 236-238). -/
def processColumn (v : VisualSignal) (colItems : List TextBlock) : String :=
  let sorted := List.insertionSort colLe colItems
  let y0 := ((sorted.head?).map (fun t => t.y)).getD 0
  let b0 := y0 + ((sorted.head?).map (fun t => t.height)).getD 0
  let fin := sorted.foldl (colStep v) ⟨y0, b0, [], ""⟩
  fin.colText ++
    (if fin.currentLine.isEmpty then ""
     else String.intercalate " " (fin.currentLine.map (fun t => t.str)) ++ "\n")

/-- Assembly of the full page text before post-processing
(`processPageText` lines 170-241): the columns in order, each followed by
`"\n\n"`. -/
def buildPageText (pageWidth : ℚ) (v : VisualSignal)
    (merged : List TextBlock) : String :=
  (splitIntoColumns merged pageWidth).foldl
    (fun acc col => acc ++ processColumn v col ++ "\n\n") ""

/-- JavaScript `\w` (ASCII word character), as used by the hyphenation
regex `/(\w+)-\s*\n\s*(\w+)/g` at line 245. -/
def isWordChar (c : Char) : Bool :=
  (decide ('a' ≤ c) && decide (c ≤ 'z')) ||
  (decide ('A' ≤ c) && decide (c ≤ 'Z')) ||
  (decide ('0' ≤ c) && decide (c ≤ '9')) ||
  decide (c = '_')

/-- JavaScript `\s` restricted to the ASCII whitespace characters that can
occur in the assembled page text. -/
def isSpaceChar (c : Char) : Bool :=
  decide (c = ' ') || decide (c = '\t') || decide (c = '\n') ||
  decide (c = '\r') || decide (c = '\x0b') || decide (c = '\x0c')

/-- One leftmost-match attempt of `/(\w+)-\s*\n\s*(\w+)/` at the head of
the character list: a maximal nonempty word run, a hyphen, a maximal
whitespace run containing a newline, then a maximal nonempty word run.
Returns the replacement `$1$2` and the unconsumed suffix. -/
def tryHyphenMatch (cs : List Char) : Option (List Char × List Char) :=
  let w1 := cs.takeWhile isWordChar
  let r1 := cs.dropWhile isWordChar
  if w1.isEmpty then none
  else
    match r1 with
    | c :: r2 =>
      if c = '-' then
        let ws := r2.takeWhile isSpaceChar
        let r3 := r2.dropWhile isSpaceChar
        if ws.contains '\n' then
          let w2 := r3.takeWhile isWordChar
          let r4 := r3.dropWhile isWordChar
          if w2.isEmpty then none else some (w1 ++ w2, r4)
        else none
      else none
    | [] => none

/-- The global scan of `String.prototype.replace` with the hyphenation
regex: try a match at every position, resume after each replacement.
`fuel` bounds the recursion by the input length. -/
def hyphenFixAux : Nat → List Char → List Char
  | 0, cs => cs
  | _ + 1, [] => []
  | fuel + 1, c :: cs =>
    match tryHyphenMatch (c :: cs) with
    | some (rep, rest) => rep ++ hyphenFixAux fuel rest
    | none => c :: hyphenFixAux fuel cs

/-- The hyphenation repair of `processPageText` line 245:
`fullPageText.replace(/(\w+)-\s*\n\s*(\w+)/g, '$1$2')`. -/
def hyphenFix (s : String) : String :=
  String.mk (hyphenFixAux s.data.length s.data)

/-- The emitted page text: assembled columns post-processed by the
hyphenation repair (`processPageText` lines 243-247). -/
def pageTextFromMerged (pageWidth : ℚ) (v : VisualSignal)
    (merged : List TextBlock) : String :=
  hyphenFix (buildPageText pageWidth v merged)

/-- A raw run as delivered by the rendering engine
(`textContent.items`): text, `transform[4]`/`transform[5]` coordinates,
width, height. -/
structure RawItem where
  str : String
  tx : ℚ
  ty : ℚ
  width : ℚ
  height : ℚ
  hasEOL : Bool
deriving DecidableEq, Repr

/-- The immutable per-page input supplied by the rendering engine:
positioned runs, viewport, and the optional drawing-operator summary. -/
structure PageContent where
  items : List RawItem
  width : ℚ
  height : ℚ
  ops : Option (List Nat)
deriving DecidableEq

/-- JavaScript `String.prototype.trim`: strip leading and trailing
whitespace (modelled on the character list). -/
def jsTrim (s : String) : String :=
  String.mk
    (((s.data.dropWhile Char.isWhitespace).reverse.dropWhile
        Char.isWhitespace).reverse)

/-- Token normalization of `processPageText` lines 144-159: drop
whitespace-only runs (`item.str.trim().length > 0`), flip `y` to a
top-left origin, default a zero height to 10 (`item.height || 10`), then
drop the header band (`y ≤ 5%·pageHeight`) and footer band
(`y ≥ 95%·pageHeight`). -/
def buildTokens (pc : PageContent) : List TextBlock :=
  ((pc.items.filter (fun it => decide (0 < (jsTrim it.str).length))).map
    (fun it =>
      { str := it.str, x := it.tx, y := pc.height - it.ty,
        width := it.width,
        height := if it.height = 0 then 10 else it.height,
        hasEOL := it.hasEOL })).filter
    (fun i => decide (pc.height * (5/100) < i.y ∧ i.y < pc.height * (95/100)))

/-- Embedding of `processPageText` (`src/utils/pdfUtils.ts` lines 137-248) as a pure
function of the page input: every intermediate entity is built fresh
inside the call. -/
def processPageText (pc : PageContent) : String :=
  pageTextFromMerged pc.width (getVisualSignals pc.ops)
    (mergeTextItems (buildTokens pc))

/-- One invocation of the reconstruction together with the scratch buffer
it leaves behind: the token array that `mergeTextItems` sorts and mutates
in place is created fresh from `pc` by each call (lines 144-154), so the
scratch left by a previous invocation is never read. -/
def runReconstruction (pc : PageContent) (_scratch : List TextBlock) :
    String × List TextBlock :=
  let fresh := buildTokens pc
  (pageTextFromMerged pc.width (getVisualSignals pc.ops) (mergeTextItems fresh),
   mergeTextItems fresh)

/-- A loaded document handed back by the rendering engine: page count and
the page fetcher (`pdf.numPages`, `pdf.getPage`); `none` models an
upstream `getPage` failure. -/
structure PdfDocument where
  numPages : Nat
  getPage : Nat → Option PageContent

/-- Embedding of `extractPageText` (`src/utils/pdfUtils.ts` lines 278-294) after the
document is opened: an out-of-range index returns `""` at once; otherwise
the page is fetched exactly once and processed, a failed fetch being
caught as `""`.  The second component records the page numbers requested
from the engine. -/
def extractPageText (doc : PdfDocument) (pageNumber : Nat) :
    String × List Nat :=
  if doc.numPages < pageNumber ∨ pageNumber < 1 then ("", [])
  else
    match doc.getPage pageNumber with
    | none => ("", [pageNumber])
    | some pc => (processPageText pc, [pageNumber])

/-- Ascending-by-`x` comparator, the per-line sort
`currentLine.sort((a,b) => a.x - b.x)` of `src/unnamed/part_000`
lines 97 and 106. -/
def xLe (a b : TextBlock) : Prop := a.x ≤ b.x

instance : DecidableRel xLe := fun a b => by
  unfold xLe; infer_instance

instance : IsTotal TextBlock xLe := ⟨fun a b => le_total a.x b.x⟩

instance : IsTrans TextBlock xLe := ⟨fun _ _ _ h1 h2 => le_trans h1 h2⟩

/-- Ascending-by-`y` comparator, the column sort
`bodyItems.sort((a,b) => a.y - b.y)` of `src/unnamed/part_000` line 83. -/
def yLe (a b : TextBlock) : Prop := a.y ≤ b.y

instance : DecidableRel yLe := fun a b => by
  unfold yLe; infer_instance

instance : IsTotal TextBlock yLe := ⟨fun a b => le_total a.y b.y⟩

instance : IsTrans TextBlock yLe := ⟨fun _ _ _ h1 h2 => le_trans h1 h2⟩

/-- The line-bucketing loop of `src/unnamed/part_000` lines 85-108 after
the `y` sort: a token joins the current line when `|item.y - currentY| <
5` (`lineTolerance`), else the closed line is sorted ascending by `x` and
appended; the final line is sorted and appended too. -/
def bucketLines000 : ℚ → List TextBlock → List TextBlock → List (List TextBlock)
  | _, curLine, [] =>
    if curLine.isEmpty then [] else [List.insertionSort xLe curLine]
  | curY, curLine, item :: rest =>
    if |item.y - curY| < 5 then
      bucketLines000 curY (curLine ++ [item]) rest
    else
      List.insertionSort xLe curLine :: bucketLines000 item.y [item] rest

/-- The line assembler of the `part_000` variant (lines 78-108): sort the
column by `y`, then bucket into `x`-sorted lines
(`currentY = bodyItems[0]?.y || 0`). -/
def buildLines000 (bodyItems : List TextBlock) : List (List TextBlock) :=
  let sorted := List.insertionSort yLe bodyItems
  bucketLines000 (((sorted.head?).map (fun t => t.y)).getD 0) [] sorted

/-- The line segmentation performed by the per-column loop of
`processPageText` (`src/utils/pdfUtils.ts` lines 180-238), with the same
boundary test `|item.y - lastY| > item.height*0.5` as `colStep` but
collecting the flushed `currentLine` token lists instead of their
renderings.  No re-sort happens at a flush. -/
def colLinesAux : ℚ → List TextBlock → List TextBlock → List (List TextBlock)
  | _, curLine, [] => if curLine.isEmpty then [] else [curLine]
  | lastY, curLine, item :: rest =>
    if item.height * (1/2) < |item.y - lastY| then
      (if curLine.isEmpty then colLinesAux item.y [item] rest
       else curLine :: colLinesAux item.y [item] rest)
    else
      colLinesAux lastY (curLine ++ [item]) rest

/-- The assembled lines of one column of the live pipeline. -/
def colLines (colItems : List TextBlock) : List (List TextBlock) :=
  let sorted := List.insertionSort colLe colItems
  colLinesAux (((sorted.head?).map (fun t => t.y)).getD 0) [] sorted

/-- The character class `[a-zA-Z0-9一-龥]` shared verbatim by the
highlight effects of `src/components/PDFViewer.tsx` (line 128),
`src/unnamed/part_009` (line 117) and `src/unnamed/part_010` (line 115):
ASCII letters, ASCII digits, and CJK ideographs U+4E00-U+9FA5. -/
def isKeptChar (c : Char) : Bool :=
  (decide ('a' ≤ c) && decide (c ≤ 'z')) ||
  (decide ('A' ≤ c) && decide (c ≤ 'Z')) ||
  (decide ('0' ≤ c) && decide (c ≤ '9')) ||
  (decide ('一' ≤ c) && decide (c ≤ '龥'))

/-- From `PDFViewer.tsx` line 128:
`highlightText.replace(/[^a-zA-Z0-9一-龥]/g, '').toLowerCase()`. -/
def cleanQueryViewer (s : String) : String :=
  String.mk ((s.data.filter isKeptChar).map Char.toLower)

/-- From `PDFViewer.tsx` line 131: `cleanQuery.slice(0, 50)`. -/
def searchKeyViewer (s : String) : String :=
  String.mk ((cleanQueryViewer s).data.take 50)

/-- From `src/unnamed/part_009` line 117: the same cleaning replace. -/
def cleanQueryPart9 (s : String) : String :=
  String.mk ((s.data.filter isKeptChar).map Char.toLower)

/-- From `src/unnamed/part_009` line 118: `cleanQuery.slice(0, 50)`. -/
def searchKeyPart9 (s : String) : String :=
  String.mk ((cleanQueryPart9 s).data.take 50)

/-- From `src/unnamed/part_010` line 115: the same cleaning replace
(`fullCleanQuery`). -/
def cleanQueryPart10 (s : String) : String :=
  String.mk ((s.data.filter isKeptChar).map Char.toLower)

/-- From `src/unnamed/part_010` line 117: `fullCleanQuery.slice(0, 30)`
(`searchAnchor`). -/
def searchAnchorPart10 (s : String) : String :=
  String.mk ((cleanQueryPart10 s).data.take 30)

section Lemmas

lemma maxGapJS_gt20_aux (gs : List ℚ) :
    ∀ m : ℚ, 20 < gs.foldl (fun m g => if 20 < g then g else m) m ↔
      20 < m ∨ ∃ g ∈ gs, 20 < g := by
  induction gs with
  | nil => intro m; simp
  | cons g gs ih =>
    intro m
    rw [List.foldl_cons, ih]
    by_cases hg : 20 < g
    · simp only [if_pos hg, List.mem_cons]
      constructor
      · intro _; exact Or.inr ⟨g, Or.inl rfl, hg⟩
      · intro _; exact Or.inl hg
    · simp only [if_neg hg, List.mem_cons]
      constructor
      · rintro (hm | ⟨a, ha, h20⟩)
        · exact Or.inl hm
        · exact Or.inr ⟨a, Or.inr ha, h20⟩
      · rintro (hm | ⟨a, ha, h20⟩)
        · exact Or.inl hm
        · rcases ha with rfl | ha
          · exact absurd h20 hg
          · exact Or.inr ⟨a, ha, h20⟩

lemma maxGapJS_gt20 (gs : List ℚ) : 20 < maxGapJS gs ↔ ∃ g ∈ gs, 20 < g := by
  rw [maxGapJS, maxGapJS_gt20_aux]
  simp

lemma foldrMax_gt20 (gs : List ℚ) : 20 < gs.foldr max 0 ↔ ∃ g ∈ gs, 20 < g := by
  induction gs with
  | nil => simp
  | cons g gs ih => simp [List.foldr_cons, lt_max_iff, ih]

end Lemmas

/-- C2: a line closed at a line boundary is classified table-row and
rendered `| cell1 | cell2 | … |` exactly when it has more than 2 tokens
and the maximum inter-token horizontal gap exceeds 20 layout units; any
other line is rendered as its token texts joined by single spaces; in
particular tokens `a`, `b`, `c` at x-positions 0, 100, 250 with width 5
render as `"| a | b | c |"`. -/
theorem c2_table_row_classification (line : List TextBlock) :
    (settleLine line =
      if 2 < line.length ∧ 20 < (gapsOf line).foldr max 0 then
        "| " ++ String.intercalate " | " (line.map (fun t => t.str)) ++ " |"
      else
        String.intercalate " " (line.map (fun t => t.str))) ∧
    settleLine [⟨"a", 0, 0, 5, 10, false⟩, ⟨"b", 100, 0, 5, 10, false⟩,
      ⟨"c", 250, 0, 5, 10, false⟩] = "| a | b | c |" := by
  constructor
  · have hiff : (2 < line.length ∧ 20 < maxGapJS (gapsOf line)) ↔
        (2 < line.length ∧ 20 < (gapsOf line).foldr max 0) :=
      and_congr_right fun _ =>
        (maxGapJS_gt20 _).trans (foldrMax_gt20 _).symm
    rw [settleLine]
    exact if_congr hiff rfl rfl
  · norm_num [settleLine, gapsOf, maxGapJS]
    decide

/-- C3: at a line boundary the figure placeholder is emitted exactly when
the vertical gap exceeds 4× the token height and the page's visual signal
is set; a gap of `5·height` with an all-false signal yields only the
paragraph break, the same gap with `hasImage = true` yields the
placeholder; a gap over 1.5× the height that fails the placeholder
condition yields only the paragraph break. -/
theorem c3_visual_placeholder_gating (gapY h : ℚ) (v : VisualSignal) :
    (gapText gapY h v = visualPlaceholder ↔
      h * 4 < gapY ∧ (v.hasImage || v.hasGraphics) = true) ∧
    (h * (3/2) < gapY →
      ¬(h * 4 < gapY ∧ (v.hasImage || v.hasGraphics) = true) →
      gapText gapY h v = "\n") ∧
    (0 < h → gapText (5 * h) h ⟨false, false⟩ = "\n") ∧
    (0 < h → ∀ g : Bool, gapText (5 * h) h ⟨true, g⟩ = visualPlaceholder) := by
  refine ⟨?_, ?_, ?_, ?_⟩
  · by_cases hc : h * 4 < gapY ∧ (v.hasImage || v.hasGraphics) = true
    · simp [gapText, hc]
    · rw [gapText, if_neg hc]
      constructor
      · intro he
        by_cases hp : h * (3/2) < gapY
        · rw [if_pos hp] at he; exact absurd he (by decide)
        · rw [if_neg hp] at he; exact absurd he (by decide)
      · intro hcc; exact absurd hcc hc
  · intro hp hc
    rw [gapText, if_neg hc, if_pos hp]
  · intro hh
    rw [gapText, if_neg, if_pos (by linarith)]
    simp
  · intro hh g
    rw [gapText, if_pos ⟨by linarith, by simp⟩]

/-- Witness for C3 at height 10 and gap 50. -/
theorem c3_visual_placeholder_gating_witness :
    gapText (5 * 10) 10 ⟨false, false⟩ = "\n" ∧
    gapText (5 * 10) 10 ⟨true, false⟩ = visualPlaceholder ∧
    gapText (5 * 10) 10 ⟨true, true⟩ = visualPlaceholder :=
  ⟨(c3_visual_placeholder_gating (5 * 10) 10 ⟨false, false⟩).2.2.1 (by norm_num),
   (c3_visual_placeholder_gating (5 * 10) 10 ⟨true, false⟩).2.2.2 (by norm_num) false,
   (c3_visual_placeholder_gating (5 * 10) 10 ⟨true, true⟩).2.2.2 (by norm_num) true⟩

section HyphenLemmas

lemma length_dropWhile_le (p : Char → Bool) :
    ∀ l : List Char, (l.dropWhile p).length ≤ l.length := by
  intro l
  induction l with
  | nil => simp
  | cons a l ih =>
    rw [List.dropWhile_cons]
    by_cases h : p a = true
    · simp only [h, if_true]
      exact Nat.le_succ_of_le ih
    · simp [h]

lemma takeWhile_all_append {p : Char → Bool} :
    ∀ {w r : List Char}, (∀ c ∈ w, p c = true) →
      (∀ c, r.head? = some c → p c = false) →
      (w ++ r).takeWhile p = w ∧ (w ++ r).dropWhile p = r := by
  intro w
  induction w with
  | nil =>
    intro r _ hr
    cases r with
    | nil => simp
    | cons a r' =>
      have ha := hr a rfl
      simp [List.takeWhile_cons, List.dropWhile_cons, ha]
  | cons a w ih =>
    intro r hw hr
    have ha : p a = true := hw a (List.mem_cons_self a w)
    have hw' : ∀ c ∈ w, p c = true := fun c hc => hw c (List.mem_cons_of_mem a hc)
    obtain ⟨ht, hd⟩ := ih hw' hr
    simp [List.takeWhile_cons, List.dropWhile_cons, ha, ht, hd]

lemma wordChar_not_space {c : Char} (h : isWordChar c = true) :
    isSpaceChar c = false := by
  by_contra hs
  rw [Bool.not_eq_false] at hs
  simp only [isSpaceChar, Bool.or_eq_true, decide_eq_true_eq] at hs
  rcases hs with ((((rfl | rfl) | rfl) | rfl) | rfl) | rfl <;>
    simp [isWordChar] at h

lemma tryHyphenMatch_eq {w1 ws w2 rest : List Char}
    (hw1ne : w1 ≠ []) (hw1 : ∀ c ∈ w1, isWordChar c = true)
    (hws : ∀ c ∈ ws, isSpaceChar c = true) (hnl : '\n' ∈ ws)
    (hw2ne : w2 ≠ []) (hw2 : ∀ c ∈ w2, isWordChar c = true)
    (hrest : ∀ c, rest.head? = some c → isWordChar c = false) :
    tryHyphenMatch (w1 ++ '-' :: (ws ++ (w2 ++ rest))) = some (w1 ++ w2, rest) := by
  obtain ⟨t1, d1⟩ := takeWhile_all_append (p := isWordChar)
    (r := '-' :: (ws ++ (w2 ++ rest))) hw1
    (fun c hc => by
      rw [List.head?_cons, Option.some_inj] at hc
      subst hc
      decide)
  obtain ⟨t2, d2⟩ := takeWhile_all_append (p := isSpaceChar)
    (r := w2 ++ rest) hws
    (fun c hc => by
      cases w2 with
      | nil => exact absurd rfl hw2ne
      | cons b w2' =>
        rw [List.cons_append, List.head?_cons, Option.some_inj] at hc
        cases hc
        exact wordChar_not_space (hw2 _ (List.mem_cons_self _ _)))
  obtain ⟨t3, d3⟩ := takeWhile_all_append (p := isWordChar)
    (r := rest) hw2 hrest
  have h1 : w1.isEmpty = false := by simpa using hw1ne
  have h2 : w2.isEmpty = false := by simpa using hw2ne
  have h3 : ws.contains '\n' = true := by simpa using hnl
  simp only [tryHyphenMatch, t1, d1, t2, d2, t3, d3, h1, h2, h3,
    Bool.false_eq_true, if_false, if_true]

lemma hyphenFixAux_nil (f : Nat) : hyphenFixAux f [] = [] := by
  cases f <;> rfl

lemma tryHyphenMatch_shrinks {cs rep rest : List Char}
    (h : tryHyphenMatch cs = some (rep, rest)) : rest.length < cs.length := by
  simp only [tryHyphenMatch] at h
  by_cases he : (cs.takeWhile isWordChar).isEmpty = true
  · rw [if_pos he] at h; exact absurd h (by simp)
  · rw [if_neg he] at h
    have hlt : (cs.dropWhile isWordChar).length < cs.length := by
      have hsplit := List.takeWhile_append_dropWhile isWordChar cs
      have htne : (cs.takeWhile isWordChar).length ≠ 0 := by
        intro h0
        rw [List.length_eq_zero] at h0
        rw [h0] at he
        exact he rfl
      have := congrArg List.length hsplit
      rw [List.length_append] at this
      omega
    cases hd : cs.dropWhile isWordChar with
    | nil => rw [hd] at h; exact absurd h (by simp)
    | cons a r2 =>
      rw [hd] at hlt
      simp only [hd] at h
      by_cases ha : a = '-'
      · rw [if_pos ha] at h
        by_cases hc : (r2.takeWhile isSpaceChar).contains '\n' = true
        · rw [if_pos hc] at h
          by_cases h2 : ((r2.dropWhile isSpaceChar).takeWhile isWordChar).isEmpty = true
          · rw [if_pos h2] at h; exact absurd h (by simp)
          · rw [if_neg h2] at h
            rw [Option.some_inj, Prod.mk.injEq] at h
            have hr : rest = (r2.dropWhile isSpaceChar).dropWhile isWordChar := h.2.symm
            have l1 := length_dropWhile_le isWordChar (r2.dropWhile isSpaceChar)
            have l2 := length_dropWhile_le isSpaceChar r2
            rw [hr]
            simp only [List.length_cons] at hlt
            omega
        · rw [if_neg hc] at h; exact absurd h (by simp)
      · rw [if_neg ha] at h; exact absurd h (by simp)

lemma hyphenFixAux_fuel :
    ∀ (f1 f2 : Nat) (cs : List Char), cs.length ≤ f1 → cs.length ≤ f2 →
      hyphenFixAux f1 cs = hyphenFixAux f2 cs := by
  intro f1
  induction f1 with
  | zero =>
    intro f2 cs h1 _
    have : cs = [] := List.length_eq_zero.mp (Nat.le_zero.mp h1)
    subst this
    rw [hyphenFixAux_nil, hyphenFixAux_nil]
  | succ f1 ih =>
    intro f2 cs h1 h2
    cases cs with
    | nil => rw [hyphenFixAux_nil, hyphenFixAux_nil]
    | cons c cs' =>
      cases f2 with
      | zero => simp at h2
      | succ f2' =>
        simp only [List.length_cons] at h1 h2
        cases hm : tryHyphenMatch (c :: cs') with
        | some pr =>
          obtain ⟨rep, rest⟩ := pr
          have hlt := tryHyphenMatch_shrinks hm
          simp only [List.length_cons] at hlt
          simp only [hyphenFixAux, hm]
          rw [ih f2' rest (by omega) (by omega)]
        | none =>
          simp only [hyphenFixAux, hm]
          rw [ih f2' cs' (by omega) (by omega)]

end HyphenLemmas

/-- C4: in the assembled page text, a word-character run followed by a
hyphen, whitespace containing a line break, and another word-character
run is replaced by the two runs concatenated directly, the hyphen and
break removed; the scan then continues on the remaining text. -/
theorem c4_hyphenation_repair (w1 ws w2 rest : List Char)
    (hw1ne : w1 ≠ []) (hw1 : ∀ c ∈ w1, isWordChar c = true)
    (hws : ∀ c ∈ ws, isSpaceChar c = true) (hnl : '\n' ∈ ws)
    (hw2ne : w2 ≠ []) (hw2 : ∀ c ∈ w2, isWordChar c = true)
    (hrest : ∀ c, rest.head? = some c → isWordChar c = false) :
    hyphenFix (String.mk (w1 ++ '-' :: (ws ++ (w2 ++ rest)))) =
      String.mk (w1 ++ (w2 ++ hyphenFixAux rest.length rest)) := by
  have hm := tryHyphenMatch_eq hw1ne hw1 hws hnl hw2ne hw2 hrest
  cases hl : w1 ++ '-' :: (ws ++ (w2 ++ rest)) with
  | nil => cases w1 with | nil => exact absurd rfl hw1ne | cons a b => simp at hl
  | cons c cs' =>
    rw [hyphenFix]
    show String.mk (hyphenFixAux (c :: cs').length (c :: cs')) = _
    rw [hl] at hm
    have hshr := tryHyphenMatch_shrinks hm
    simp only [List.length_cons, hyphenFixAux, hm]
    rw [hyphenFixAux_fuel cs'.length rest.length rest
      (by simp only [List.length_cons] at hshr; omega) le_rfl]
    rw [← List.append_assoc]

/-- Witness for C4: `"algo-"` and `"rithm"` separated by a line break
yield `"algorithm"`. -/
theorem c4_hyphenation_repair_witness : hyphenFix "algo-\nrithm" = "algorithm" := by
  have h := c4_hyphenation_repair ['a', 'l', 'g', 'o'] ['\n']
    ['r', 'i', 't', 'h', 'm'] []
    (by decide) (by decide) (by decide) (by decide) (by decide) (by decide)
    (fun c hc => by simp at hc)
  exact (show hyphenFix "algo-\nrithm" =
    hyphenFix (String.mk (['a', 'l', 'g', 'o'] ++ '-' ::
      (['\n'] ++ (['r', 'i', 't', 'h', 'm'] ++ [])))) from by decide).trans
    (h.trans (by decide))

lemma filter_length_compl {α : Type} (l : List α) (p : α → Bool) :
    (l.filter p).length + (l.filter (fun a => !(p a))).length = l.length := by
  induction l with
  | nil => simp
  | cons a l ih =>
    by_cases h : p a = true <;> simp only [List.filter_cons, h] <;> simp <;> omega

/-- C1: the column segmenter declares two columns exactly when both the
count of tokens with center `cx < 0.45·W` and the count with
`cx > 0.55·W` exceed 30% of the total token count; in that case tokens
are partitioned by `cx < 0.5·W` (each token in exactly one column) and
the emitted page text is the left column's text followed by the right
column's text; otherwise all tokens form a single column. -/
theorem c1_column_segmentation (items : List TextBlock) (W : ℚ) (v : VisualSignal) :
    ((splitIntoColumns items W).length = 2 ↔
      (((items.filter (fun i => decide (cx i < W * (45/100)))).length : ℚ) >
          (items.length : ℚ) * (3/10) ∧
        ((items.filter (fun i => decide (W * (55/100) < cx i))).length : ℚ) >
          (items.length : ℚ) * (3/10))) ∧
    (¬((((items.filter (fun i => decide (cx i < W * (45/100)))).length : ℚ) >
          (items.length : ℚ) * (3/10)) ∧
        ((items.filter (fun i => decide (W * (55/100) < cx i))).length : ℚ) >
          (items.length : ℚ) * (3/10)) →
      splitIntoColumns items W = [items]) ∧
    (((((items.filter (fun i => decide (cx i < W * (45/100)))).length : ℚ) >
          (items.length : ℚ) * (3/10)) ∧
        ((items.filter (fun i => decide (W * (55/100) < cx i))).length : ℚ) >
          (items.length : ℚ) * (3/10)) →
      splitIntoColumns items W =
          [items.filter (fun i => decide (cx i < W * (1/2))),
           items.filter (fun i => decide (W * (1/2) ≤ cx i))] ∧
        (∀ t ∈ items,
          (cx t < W * (1/2) →
            t ∈ items.filter (fun i => decide (cx i < W * (1/2))) ∧
              t ∉ items.filter (fun i => decide (W * (1/2) ≤ cx i))) ∧
          (W * (1/2) ≤ cx t →
            t ∈ items.filter (fun i => decide (W * (1/2) ≤ cx i)) ∧
              t ∉ items.filter (fun i => decide (cx i < W * (1/2))))) ∧
        (items.filter (fun i => decide (cx i < W * (1/2)))).length +
            (items.filter (fun i => decide (W * (1/2) ≤ cx i))).length =
          items.length ∧
        pageTextFromMerged W v items =
          hyphenFix
            (processColumn v (items.filter (fun i => decide (cx i < W * (1/2)))) ++
              "\n\n" ++
              (processColumn v
                  (items.filter (fun i => decide (W * (1/2) ≤ cx i))) ++
                "\n\n"))) := by
  have hsplit_pos :
      ∀ hc : (((items.filter (fun i => decide (cx i < W * (45/100)))).length : ℚ) >
          (items.length : ℚ) * (3/10)) ∧
        ((items.filter (fun i => decide (W * (55/100) < cx i))).length : ℚ) >
          (items.length : ℚ) * (3/10),
      splitIntoColumns items W =
        [items.filter (fun i => decide (cx i < W * (1/2))),
         items.filter (fun i => decide (W * (1/2) ≤ cx i))] := by
    intro hc
    rw [splitIntoColumns]
    exact if_pos hc
  have hcompl : items.filter (fun i => decide (W * (1/2) ≤ cx i)) =
      items.filter (fun i => !(decide (cx i < W * (1/2)))) := by
    refine List.filter_congr ?_
    intro a _
    by_cases h : cx a < W * (1/2)
    · rw [decide_eq_true h, decide_eq_false (not_le.mpr h)]
      rfl
    · rw [decide_eq_false h, decide_eq_true (not_lt.mp h)]
      rfl
  refine ⟨?_, fun hnc => ?_, fun hc => ?_⟩
  · constructor
    · intro hlen
      by_contra hnc
      rw [splitIntoColumns] at hlen
      rw [if_neg hnc] at hlen
      simp at hlen
    · intro hc
      rw [hsplit_pos hc]
      rfl
  · rw [splitIntoColumns]
    exact if_neg hnc
  · refine ⟨hsplit_pos hc, ?_, ?_, ?_⟩
    · intro t ht
      constructor
      · intro hlt
        constructor
        · exact List.mem_filter.mpr ⟨ht, decide_eq_true hlt⟩
        · intro hmem
          have h2 := of_decide_eq_true (List.mem_filter.mp hmem).2
          exact absurd hlt (not_lt.mpr h2)
      · intro hge
        constructor
        · exact List.mem_filter.mpr ⟨ht, decide_eq_true hge⟩
        · intro hmem
          have h2 := of_decide_eq_true (List.mem_filter.mp hmem).2
          exact absurd h2 (not_lt.mpr hge)
    · rw [hcompl]
      exact filter_length_compl items _
    · rw [pageTextFromMerged, buildPageText, hsplit_pos hc,
        List.foldl_cons, List.foldl_cons, List.foldl_nil,
        String.empty_append, String.append_assoc]

/-- A synthetic two-column page: four tokens centered at 10 and four at
80 on a page of width 100, so both side counts (4) exceed 30% of 8. -/
def c1demo : List TextBlock :=
  [⟨"l1", 10, 10, 0, 10, false⟩, ⟨"r1", 80, 10, 0, 10, false⟩,
   ⟨"l2", 10, 20, 0, 10, false⟩, ⟨"r2", 80, 20, 0, 10, false⟩,
   ⟨"l3", 10, 30, 0, 10, false⟩, ⟨"r3", 80, 30, 0, 10, false⟩,
   ⟨"l4", 10, 40, 0, 10, false⟩, ⟨"r4", 80, 40, 0, 10, false⟩]

/-- Witness for C1 on the synthetic two-column page. -/
theorem c1_column_segmentation_witness :
    splitIntoColumns c1demo 100 =
      [c1demo.filter (fun i => decide (cx i < 100 * (1/2))),
       c1demo.filter (fun i => decide (100 * (1/2) ≤ cx i))] :=
  ((c1_column_segmentation c1demo 100 ⟨false, false⟩).2.2
    (by norm_num [c1demo, cx])).1

/-- C6: reconstruction is pure: a second invocation on the same page,
fed the scratch buffer left by the first, returns the identical page
text, and the result is a function of the input field values alone. -/
theorem c6_pure_reconstruction (pc : PageContent) (scratch : List TextBlock) :
    (runReconstruction pc ((runReconstruction pc scratch).2)).1 =
        (runReconstruction pc scratch).1 ∧
    (∀ pc2 : PageContent, pc2.items = pc.items → pc2.width = pc.width →
      pc2.height = pc.height → pc2.ops = pc.ops →
      (runReconstruction pc2 scratch).1 = (runReconstruction pc scratch).1) ∧
    (runReconstruction pc scratch).1 = processPageText pc := by
  refine ⟨rfl, ?_, rfl⟩
  intro pc2 hi hw hh ho
  cases pc
  cases pc2
  simp only at hi hw hh ho
  subst hi
  subst hw
  subst hh
  subst ho
  rfl

/-- A one-token page used as the C6 witness input. -/
def c6demo : PageContent := ⟨[⟨"Hi", 10, 700, 20, 10, false⟩], 600, 800, none⟩

/-- Witness for C6: the threaded double run on a concrete page. -/
theorem c6_pure_reconstruction_witness :
    (runReconstruction c6demo ((runReconstruction c6demo []).2)).1 =
        (runReconstruction c6demo []).1 ∧
    (runReconstruction c6demo []).1 = (runReconstruction c6demo []).1 ∧
    (runReconstruction c6demo []).1 = processPageText c6demo :=
  ⟨(c6_pure_reconstruction c6demo []).1,
   (c6_pure_reconstruction c6demo []).2.1 c6demo rfl rfl rfl rfl,
   (c6_pure_reconstruction c6demo []).2.2⟩

/-- C7: a page whose token list is empty after normalization/filtering
produces the contentless page text `"\n\n"` (its trim is empty) rather
than failing, and the missing drawing-operator summary degrades the
visual signal to all-false. -/
theorem c7_empty_input_safe (pc : PageContent) (h : buildTokens pc = []) :
    processPageText pc = "\n\n" ∧
    (∀ c ∈ (processPageText pc).data, c = '\n') ∧
    getVisualSignals none = ⟨false, false⟩ := by
  have h1 : processPageText pc = "\n\n" := by
    rw [processPageText, h]
    norm_num [pageTextFromMerged, buildPageText, mergeTextItems,
      splitIntoColumns, processColumn, List.insertionSort]
    decide
  exact ⟨h1, by rw [h1]; decide, rfl⟩

/-- A page whose only run is whitespace, filtered out by normalization. -/
def c7demo : PageContent := ⟨[⟨"  ", 10, 100, 5, 10, false⟩], 600, 800, none⟩

/-- Witness for C7 on the whitespace-only page. -/
theorem c7_empty_input_safe_witness :
    processPageText c7demo = "\n\n" ∧
    (∀ c ∈ (processPageText c7demo).data, c = '\n') :=
  ⟨(c7_empty_input_safe c7demo (by decide)).1,
   (c7_empty_input_safe c7demo (by decide)).2.1⟩

/-- C8: a page request with index out of range (`< 1` or `> numPages`)
yields the single failure value `""` with no page fetched from the
engine, and any request fetches its page at most once (no retry). -/
theorem c8_out_of_range_single_failure (doc : PdfDocument) (n : Nat) :
    ((n < 1 ∨ doc.numPages < n) → extractPageText doc n = ("", [])) ∧
    (extractPageText doc n).2.length ≤ 1 := by
  constructor
  · intro h
    rw [extractPageText]
    exact if_pos (Or.symm h)
  · rw [extractPageText]
    by_cases hc : doc.numPages < n ∨ n < 1
    · rw [if_pos hc]
      simp
    · rw [if_neg hc]
      cases hg : doc.getPage n <;> simp

/-- A three-page document whose pages all fail to load. -/
def c8demo : PdfDocument := ⟨3, fun _ => none⟩

/-- Witness for C8: page 5 of a 3-page document. -/
theorem c8_out_of_range_single_failure_witness :
    extractPageText c8demo 5 = ("", []) :=
  (c8_out_of_range_single_failure c8demo 5).1 (Or.inr (by decide))

/-- C5 counterexample: on a fragment with more than 30 normalized
characters, the anchor of `PDFViewer.tsx` (first 50) differs from the
anchor of `part_010` (first 30), so the relocation normalization is not
bit-for-bit the same function in every implementation. -/
theorem c5_anchor_counterexample :
    searchKeyViewer "abcdefghijklmnopqrstuvwxyz0123456789" ≠
      searchAnchorPart10 "abcdefghijklmnopqrstuvwxyz0123456789" := by
  decide

/-- C5 amended: all three implementations share the identical cleaning
function (keep ASCII letters/digits and CJK U+4E00-U+9FA5, lowercase);
`PDFViewer.tsx` and `part_009` take identical 50-character anchors, and
`part_010`'s 30-character anchor agrees with them exactly on fragments
whose cleaned form has at most 30 characters. -/
theorem c5_anchor_normalization_amended (s : String) :
    cleanQueryViewer s = cleanQueryPart9 s ∧
    cleanQueryPart9 s = cleanQueryPart10 s ∧
    searchKeyViewer s = searchKeyPart9 s ∧
    ((cleanQueryPart10 s).length ≤ 30 →
      searchKeyViewer s = searchAnchorPart10 s) := by
  refine ⟨rfl, rfl, rfl, ?_⟩
  intro h
  have h30 : (cleanQueryPart10 s).data.length ≤ 30 := h
  rw [searchKeyViewer, searchAnchorPart10]
  have e : cleanQueryViewer s = cleanQueryPart10 s := rfl
  rw [e, List.take_of_length_le (by omega), List.take_of_length_le (by omega)]

/-- Witness for the amended C5 on a short fragment. -/
theorem c5_anchor_normalization_amended_witness :
    searchKeyViewer "Hello, World!" = searchAnchorPart10 "Hello, World!" :=
  (c5_anchor_normalization_amended "Hello, World!").2.2.2 (by decide)

/-- Token at x 100, y 0 (sorts first in the column). -/
def c9tokA : TextBlock := ⟨"R", 100, 0, 5, 10, false⟩

/-- Token at x 0, y 4: more than 3 below `c9tokA` (so the column sort
orders by `y`) but within half the height (so both land on one line). -/
def c9tokB : TextBlock := ⟨"L", 0, 4, 5, 10, false⟩

/-- Token far enough below to close the first line at a boundary. -/
def c9tokC : TextBlock := ⟨"c", 0, 18, 5, 10, false⟩

/-- C9 counterexample: in the live pipeline the line closed at the
boundary keeps the order `[c9tokA, c9tokB]` — x positions 100, 0, not
ascending — and the column renders `"R L\nc\n"`, the right-hand token
first; no defensive re-sort happens. -/
theorem c9_sorted_lines_counterexample :
    colLines [c9tokA, c9tokB, c9tokC] = [[c9tokA, c9tokB], [c9tokC]] ∧
    ¬ List.Sorted xLe [c9tokA, c9tokB] ∧
    processColumn ⟨false, false⟩ [c9tokA, c9tokB, c9tokC] = "R L\nc\n" := by
  refine ⟨?_, ?_, ?_⟩
  · norm_num [colLines, colLinesAux, colLe, c9tokA, c9tokB, c9tokC,
      List.insertionSort, List.orderedInsert]
  · intro hs
    rw [List.sorted_cons] at hs
    have h1 := hs.1 c9tokB (by simp)
    norm_num [xLe, c9tokA, c9tokB] at h1
  · norm_num [processColumn, colStep, colLe, c9tokA, c9tokB, c9tokC,
      List.insertionSort, List.orderedInsert, settleLine, gapText,
      gapsOf, maxGapJS]
    decide

/-- C9 amended: in the `part_000` variant, which performs the defensive
re-sort at every line close, every assembled line is sorted ascending by
`x`, for every input token configuration. -/
theorem c9_sorted_lines_amended (bodyItems : List TextBlock) :
    ∀ line ∈ buildLines000 bodyItems, List.Sorted xLe line := by
  have haux : ∀ (rest : List TextBlock) (curY : ℚ) (curLine : List TextBlock),
      ∀ l ∈ bucketLines000 curY curLine rest, List.Sorted xLe l := by
    intro rest
    induction rest with
    | nil =>
      intro curY curLine l hl
      simp only [bucketLines000] at hl
      by_cases he : curLine.isEmpty
      · rw [if_pos he] at hl
        simp at hl
      · rw [if_neg he] at hl
        rcases List.mem_singleton.mp hl with rfl
        exact List.sorted_insertionSort xLe curLine
    | cons item rest ih =>
      intro curY curLine l hl
      simp only [bucketLines000] at hl
      by_cases hy : |item.y - curY| < 5
      · rw [if_pos hy] at hl
        exact ih curY (curLine ++ [item]) l hl
      · rw [if_neg hy] at hl
        rcases List.mem_cons.mp hl with rfl | h2
        · exact List.sorted_insertionSort xLe curLine
        · exact ih item.y [item] l h2
  intro line hl
  exact haux _ _ _ line hl

/-- Same-line token with the larger x, used in the C9 witness. -/
def c9tok1 : TextBlock := ⟨"b", 100, 0, 5, 10, false⟩

/-- Same-line token with the smaller x, used in the C9 witness. -/
def c9tok2 : TextBlock := ⟨"a", 0, 0, 5, 10, false⟩

/-- Witness for the amended C9: the single line assembled by the
`part_000` variant from tokens given in descending-x order is the
x-sorted `[c9tok2, c9tok1]`. -/
theorem c9_sorted_lines_amended_witness : List.Sorted xLe [c9tok2, c9tok1] :=
  c9_sorted_lines_amended [c9tok1, c9tok2] [c9tok2, c9tok1]
    (by norm_num [buildLines000, bucketLines000, List.insertionSort,
      List.orderedInsert, yLe, xLe, c9tok1, c9tok2])

lemma colStep_no_boundary (v : VisualSignal) :
    ∀ (l : List TextBlock) (st : ColState),
      (∀ it ∈ l, ¬(it.height * (1/2) < |it.y - st.lastY|)) →
      List.foldl (colStep v) st l =
        { st with
          currentLine := st.currentLine ++ l,
          lastBottom :=
            List.foldl (fun b it => max b (it.y + it.height)) st.lastBottom l } := by
  intro l
  induction l with
  | nil => intro st _; simp
  | cons a l ih =>
    intro st h
    have ha := h a (List.mem_cons_self a l)
    rw [List.foldl_cons, colStep, if_neg ha, ih]
    · simp
    · intro it hit
      exact h it (List.mem_cons_of_mem a hit)

/-- C10: the final line of a column (the accumulator left when the token
loop ends) is always rendered as its token texts joined by single spaces:
for any non-empty column whose tokens share one y (so the whole column is
that final line), the output is the space-join of the sorted tokens
followed by a newline — never the table-row rendering and never a
vertical-gap emission, whatever the token count and inter-token gaps. -/
theorem c10_final_line_space_join (v : VisualSignal) (colItems : List TextBlock)
    (hne : colItems ≠ [])
    (hy : ∀ a ∈ colItems, ∀ b ∈ colItems, a.y = b.y)
    (hh : ∀ a ∈ colItems, 0 ≤ a.height) :
    processColumn v colItems =
      String.intercalate " "
        ((List.insertionSort colLe colItems).map (fun t => t.str)) ++ "\n" := by
  obtain ⟨c, cs, hcons⟩ :
      ∃ c cs, List.insertionSort colLe colItems = c :: cs := by
    cases hsor : List.insertionSort colLe colItems with
    | nil =>
      exfalso
      have hlen := List.length_insertionSort colLe colItems
      rw [hsor] at hlen
      exact hne (List.length_eq_zero.mp hlen.symm)
    | cons c cs => exact ⟨c, cs, rfl⟩
  have hnob : ∀ it ∈ c :: cs, ¬(it.height * (1/2) < |it.y - c.y|) := by
    intro it hit
    have hmem : it ∈ colItems := by
      rw [← List.mem_insertionSort (r := colLe), hcons]
      exact hit
    have hcmem : c ∈ colItems := by
      rw [← List.mem_insertionSort (r := colLe), hcons]
      exact List.mem_cons_self c cs
    have hyy : it.y = c.y := hy it hmem c hcmem
    have hpos : 0 ≤ it.height := hh it hmem
    rw [hyy, sub_self, abs_zero]
    intro hlt
    nlinarith
  rw [processColumn, hcons]
  simp only [List.head?_cons, Option.map_some', Option.getD_some]
  rw [colStep_no_boundary v (c :: cs) ⟨c.y, c.y + c.height, [], ""⟩ hnob]
  simp only [List.nil_append, List.isEmpty_cons, Bool.false_eq_true,
    if_false, String.empty_append]

/-- A single-line column shaped like a table row: three tokens with
inter-token gaps of 95 and 145, both exceeding the 20-unit threshold. -/
def c10demo : List TextBlock :=
  [⟨"a", 0, 0, 5, 10, false⟩, ⟨"b", 100, 0, 5, 10, false⟩,
   ⟨"c", 250, 0, 5, 10, false⟩]

/-- Witness for C10: the table-shaped final line still renders
space-joined (`"a b c\n"`), while the boundary-flush classifier
`settleLine` would have rendered the very same line as a table row. -/
theorem c10_final_line_space_join_witness :
    processColumn ⟨true, true⟩ c10demo = "a b c\n" ∧
    settleLine (List.insertionSort colLe c10demo) = "| a | b | c |" := by
  constructor
  · refine (c10_final_line_space_join ⟨true, true⟩ c10demo
      (by simp [c10demo]) ?_ ?_).trans ?_
    · intro a ha b hb
      fin_cases ha <;> fin_cases hb <;> rfl
    · intro a ha
      fin_cases ha <;> norm_num [c10demo]
    · norm_num [c10demo, List.insertionSort, List.orderedInsert, colLe]
      decide
  · norm_num [settleLine, gapsOf, maxGapJS, c10demo, List.insertionSort,
      List.orderedInsert, colLe]
    decide
